import Mathlib

/-!
Verification of the YouTube video script generator (`script_generator.py`,
`generate_script.py`) against its natural-language specification.

Python strings are modelled as `String`/`List Char` (ASCII fragment: `str.upper`,
`str.isalnum` and whitespace handling are modelled by their ASCII behaviour, which
agrees with Python on every string appearing in the program and in the claims).
Fallible Python code is modelled with `Except`; the remote OpenAI call is a
black-box oracle parameter, as the specification prescribes.
-/

/-- Python's whitespace set used by `str.strip` / `str.rstrip` (ASCII part). -/
def pyIsSpace (c : Char) : Bool :=
  c = ' ' || c = '\t' || c = '\n' || c = '\r' || c = '\x0b' || c = '\x0c'

/-- Python `needle in hay` on strings: substring containment. -/
def inStr (needle : List Char) : List Char → Bool
  | [] => needle.isEmpty
  | c :: t => needle.isPrefixOf (c :: t) || inStr needle t

/-- Python `s.upper()` (ASCII model). -/
def upperChars (l : List Char) : List Char := l.map Char.toUpper

/-- Helper for Python `text.split(sep)` (single-character separator): returns the
current chunk and the later chunks. -/
def splitOnCharP (sep : Char) : List Char → List Char × List (List Char)
  | [] => ([], [])
  | c :: rest =>
    let r := splitOnCharP sep rest
    if c = sep then ([], r.1 :: r.2) else (c :: r.1, r.2)

/-- Python `text.split(sep)` for a single-character separator. -/
def splitOnChar (sep : Char) (l : List Char) : List (List Char) :=
  (splitOnCharP sep l).1 :: (splitOnCharP sep l).2

/-- Python `sep.join(lines)` for a single-character separator. -/
def joinChar (sep : Char) : List (List Char) → List Char
  | [] => []
  | [l] => l
  | l :: l' :: ls => l ++ sep :: joinChar sep (l' :: ls)

/-- Python `s.strip()` (both ends). -/
def pyStrip (l : List Char) : List Char :=
  ((l.dropWhile pyIsSpace).reverse.dropWhile pyIsSpace).reverse

/-- Python `s.rstrip()` (trailing end only). -/
def pyRstrip (l : List Char) : List Char :=
  (l.reverse.dropWhile pyIsSpace).reverse

/-- Python `s.replace(a, b)` for a single-character pattern and single-character
replacement. -/
def replaceChar (a b : Char) (l : List Char) : List Char :=
  l.map (fun c => if c = a then b else c)

/-- Fuelled worker for Python `s.replace(pat, rep)`: non-overlapping left-to-right
replacement.  The fuel is an upper bound on the number of characters still to be
scanned, so that the recursion is structural and kernel-reducible. -/
def pyReplaceF (pat rep : List Char) : Nat → List Char → List Char
  | _, [] => []
  | 0, l => l
  | fuel + 1, c :: rest =>
    if pat ≠ [] ∧ pat.isPrefixOf (c :: rest) = true then
      rep ++ pyReplaceF pat rep fuel (rest.drop (pat.length - 1))
    else
      c :: pyReplaceF pat rep fuel rest

/-- Python `s.replace(pat, rep)` for a non-empty pattern (every use in this
program has a non-empty literal pattern). -/
def pyReplace (pat rep s : List Char) : List Char :=
  pyReplaceF pat rep s.length s

/-- Python truthiness of `api_key or os.getenv(...)` operands: `None` and the
empty string are falsy. -/
def pyTruthy : Option String → Bool
  | none => false
  | some s => s ≠ ""

/-- Python `a or b` on optional strings. -/
def pyOrOpt (a b : Option String) : Option String :=
  if pyTruthy a then a else b

/-- Message of the `ValueError` raised by `VideoScriptGenerator.__init__`. -/
def apiKeyErrorMsg : String :=
  "OpenAI API key is required. Set OPENAI_API_KEY environment variable or pass it directly."

/-- `VideoScriptGenerator.__init__`: `self.api_key = api_key or os.getenv(...)`;
raises `ValueError` when the result is falsy, otherwise stores the key. -/
def videoScriptGenerator_init (api_key env : Option String) : Except String (Option String) :=
  let key := pyOrOpt api_key env
  if pyTruthy key then Except.ok key else Except.error apiKeyErrorMsg

/-- `VideoScriptGenerator._build_prompt`: the f-string template, transcribed
verbatim from the source. -/
def build_prompt (topic video_length style target_audience additional_requirements : String) :
    String :=
  "\nCreate a YouTube video script with the following specifications:\n\n**Topic**: "
    ++ topic
    ++ "\n**Video Length**: " ++ video_length
    ++ "\n**Style**: " ++ style
    ++ "\n**Target Audience**: " ++ target_audience
    ++ "\n**Additional Requirements**: " ++ additional_requirements
    ++ "\n\nPlease structure the script with the following sections:\n\n1. **HOOK** (First 15 seconds - grab attention)\n2. **INTRODUCTION** (Introduce yourself and the topic)\n3. **MAIN CONTENT** (Core content broken into clear sections)\n4. **CALL TO ACTION** (Subscribe, like, comment prompts)\n5. **OUTRO** (Wrap up and next video tease)\n\nFor each section, provide:\n- The actual script text\n- [Stage directions/notes in brackets]\n- Estimated timing\n\nMake the script engaging, conversational, and optimized for YouTube retention. Include natural pauses and emphasis points.\n"

/-- Test `('**' in line or '#' in line)` from `_extract_section`. -/
def hasMarker (line : List Char) : Bool :=
  inStr ['*', '*'] line || inStr ['#'] line

/-- Keyword list of `_extract_section`'s break condition. -/
def breakKeywords : List (List Char) :=
  ["HOOK".data, "INTRODUCTION".data, "MAIN".data, "CALL".data, "OUTRO".data]

/-- Test `any(keyword in line.upper() for keyword in [...])` from
`_extract_section`. -/
def hasKeyword (line : List Char) : Bool :=
  breakKeywords.any (fun k => inStr k (upperChars line))

/-- Test `section_name.upper() in line.upper() and ('**' in line or '#' in line)`:
the line is a header for the target section. -/
def isTargetHeader (name line : List Char) : Bool :=
  inStr (upperChars name) (upperChars line) && hasMarker line

/-- Test of `_extract_section`'s `elif` break branch, minus the `in_section`
conjunct. -/
def isBreakLine (line : List Char) : Bool :=
  hasMarker line && hasKeyword line

/-- Scanning loop of `_extract_section`: the first branch (re)enters the section
and skips the header line, the second breaks out of the loop, the third collects
the line, the last skips it. -/
def extractLoop (name : List Char) : List (List Char) → Bool → List (List Char)
  | [], _ => []
  | line :: rest, inSection =>
    if isTargetHeader name line then
      extractLoop name rest true
    else if inSection && isBreakLine line then
      []
    else if inSection then
      line :: extractLoop name rest inSection
    else
      extractLoop name rest inSection

/-- Body of the `try` block of `VideoScriptGenerator._extract_section`.  Every
operation in it (`str.split`, `str.upper`, substring tests, list append,
`str.join`, `str.strip`) is total on strings in Python, so the body always
produces a value: the embedding returns `Except.ok` unconditionally. -/
def extract_section_try (text section_name : String) : Except Unit String :=
  Except.ok
    (String.mk (pyStrip (joinChar '\n'
      (extractLoop section_name.data (splitOnChar '\n' text.data) false))))

/-- `VideoScriptGenerator._extract_section`: the bare `except` branch maps any
exception to the sentinel string. -/
def extract_section (text section_name : String) : String :=
  match extract_section_try text section_name with
  | Except.ok s => s
  | Except.error _ => "Section not found"

/-- The Script Record assembled by `_parse_script_response`.  The Python dict's
optional `variation` key (added only by `generate_multiple_variations`) is
modelled by an `Option` field. -/
structure ScriptData where
  topic : String
  generated_at : String
  full_script : String
  hook : String
  introduction : String
  main_content : String
  call_to_action : String
  outro : String
  variation : Option Nat
deriving DecidableEq, Repr

/-- `VideoScriptGenerator._parse_script_response`; `now` stands for
`datetime.now().isoformat()`. -/
def parse_script_response (response topic now : String) : ScriptData :=
  { topic := topic
    generated_at := now
    full_script := response
    hook := extract_section response "HOOK"
    introduction := extract_section response "INTRODUCTION"
    main_content := extract_section response "MAIN CONTENT"
    call_to_action := extract_section response "CALL TO ACTION"
    outro := extract_section response "OUTRO"
    variation := none }

/-- `VideoScriptGenerator.generate_script`.  `api` is the black-box remote call
(the returned `response.choices[0].message.content`, or the exception message);
on failure the source re-raises `Exception("Error generating script: " + str(e))`. -/
def generate_script (api : Except String String)
    (topic _video_length _style _target_audience _additional_requirements now : String) :
    Except String ScriptData :=
  match api with
  | Except.ok content => Except.ok (parse_script_response content topic now)
  | Except.error e => Except.error ("Error generating script: " ++ e)

/-- Character filter of `save_script`'s `safe_topic`:
`c.isalnum() or c in (' ', '-', '_')` (ASCII model of `isalnum`). -/
def allowedChar (c : Char) : Bool :=
  c.isAlphanum || c = ' ' || c = '-' || c = '_'

/-- `safe_topic` from `save_script`: keep allowed characters, then `rstrip()`. -/
def safeTopic (topic : List Char) : List Char :=
  pyRstrip (topic.filter allowedChar)

/-- Filename derived by `save_script` when none is supplied:
`f"script_{safe_topic.replace(' ', '_')}_{timestamp}.json"`. -/
def derivedFilename (topic timestamp : String) : String :=
  "script_" ++ String.mk (replaceChar ' ' '_' (safeTopic topic.data)) ++ "_" ++ timestamp ++ ".json"

/-- Observable effect of one `save_script` call: the two files written (name and
content) and the returned value.  The structured file receives the full record
via `json.dump`; its content is modelled as the record itself. -/
structure SaveResult where
  jsonFile : String
  jsonData : ScriptData
  textFile : String
  textContent : String
  ret : String
deriving DecidableEq, Repr

/-- `VideoScriptGenerator.save_script`; `timestamp` stands for
`datetime.now().strftime("%Y%m%d_%H%M%S")`.  The text filename is
`filename.replace('.json', '.txt')`. -/
def save_script (script_data : ScriptData) (filename? : Option String) (timestamp : String) :
    SaveResult :=
  let filename := match filename? with
    | some f => f
    | none => derivedFilename script_data.topic timestamp
  { jsonFile := filename
    jsonData := script_data
    textFile := String.mk (pyReplace ".json".data ".txt".data filename.data)
    textContent :=
      "YouTube Video Script: " ++ script_data.topic ++ "\n"
        ++ "Generated: " ++ script_data.generated_at ++ "\n"
        ++ String.mk (List.replicate 50 '=') ++ "\n\n"
        ++ script_data.full_script
    ret := filename }

/-- The statement `script['variation'] = i + 1` from
`generate_multiple_variations`. -/
def setVariation (s : ScriptData) (n : Nat) : ScriptData :=
  { s with variation := some n }

/-- Loop body of `generate_multiple_variations` over the remaining indices
`i :: rest` of `range(count)`: a successful call is tagged with its 1-based
index and appended; a failing call's message is printed and the loop continues. -/
def gmvAux (api : Nat → Except String String) (nowf : Nat → String)
    (topic video_length style target_audience additional_requirements : String) :
    List Nat → List ScriptData × List String
  | [] => ([], [])
  | i :: rest =>
    let r := gmvAux api nowf topic video_length style target_audience additional_requirements rest
    match generate_script (api i) topic video_length style target_audience
        additional_requirements (nowf i) with
    | Except.ok s => (setVariation s (i + 1) :: r.1, r.2)
    | Except.error e =>
      (r.1, ("Error generating variation " ++ toString (i + 1) ++ ": " ++ e) :: r.2)

/-- `VideoScriptGenerator.generate_multiple_variations`: first component is the
returned `variations` list, second the error lines printed by the loop.  The
`except` clause catches every exception, so the function itself never raises:
its model is total. -/
def generate_multiple_variations (api : Nat → Except String String) (nowf : Nat → String)
    (topic : String) (count : Nat)
    (video_length style target_audience additional_requirements : String) :
    List ScriptData × List String :=
  gmvAux api nowf topic video_length style target_audience additional_requirements
    (List.range count)

/-- Filename used for the saved variation number `i` in the CLI:
`args.output.replace('.', f'_v{i}.')`. -/
def variationFilename (base : String) (i : Nat) : String :=
  String.mk (pyReplace ".".data ("_v" ++ toString i ++ ".").data base.data)

/-- Remediation lines printed by the CLI when the error message mentions
"API key". -/
def remediationLines : List String :=
  ["\n🔑 To fix this:",
   "1. Get an OpenAI API key from https://platform.openai.com/api-keys",
   "2. Set it as an environment variable:",
   "   export OPENAI_API_KEY=\x27your-key-here\x27",
   "3. Or create a .env file with your API key"]

/-- Lines printed by the CLI's `except Exception` handler. -/
def cliErrorOutput (e : String) : List String :=
  ("❌ Error: " ++ e) :: (if inStr "API key".data e.data then remediationLines else [])

/-- Error-handling skeleton of `main` in `generate_script.py`: the whole body
runs inside one `try`; the generator is constructed with no explicit key
argument; `rest` abstracts the remainder of the body (network calls, saving,
printing), which can itself raise.  The result is the list of lines printed on
the error path, or `rest`'s output; the function is total, so no exception
propagates out of `main`. -/
def cliMain (env : Option String) (rest : Option String → Except String (List String)) :
    List String :=
  match videoScriptGenerator_init none env with
  | Except.error e => cliErrorOutput e
  | Except.ok key =>
    match rest key with
    | Except.ok out => out
    | Except.error e => cliErrorOutput e

/-- Filename derivation as the words of claim C6 describe it (refinement
comparison): remove every disallowed character and replace spaces by
underscores — without the source's additional `rstrip()` — then append the
timestamp suffix and the fixed extension. -/
def claimDerivedFilename (topic timestamp : String) : String :=
  "script_" ++ String.mk (replaceChar ' ' '_' (topic.data.filter allowedChar)) ++ "_"
    ++ timestamp ++ ".json"

/-- The five section names, as `_parse_script_response` passes them to
`_extract_section`. -/
def sectionNames : List String :=
  ["HOOK", "INTRODUCTION", "MAIN CONTENT", "CALL TO ACTION", "OUTRO"]

/-- The line is a markup-marked header for exactly the section called `name`:
it carries a marker, mentions `name` (case-insensitively), and mentions none of
the section names in `others`. -/
def HeaderFor (name : List Char) (others : List (List Char)) (line : List Char) : Prop :=
  hasMarker line = true ∧
  inStr (upperChars name) (upperChars line) = true ∧
  ∀ n ∈ others, inStr (upperChars n) (upperChars line) = false

/-- The full line sequence of a five-section response: each header on its own
line, followed by its body lines. -/
def responseLines (hH hI hM hC hO : List Char) (bH bI bM bC bO : List (List Char)) :
    List (List Char) :=
  hH :: bH ++ hI :: bI ++ hM :: bM ++ hC :: bC ++ hO :: bO

/-- Well-formedness of a five-section response, making the claim's implicit
conditions explicit: the five headers appear in order, each marked and naming
only its own section; body lines carry no markup marker and no newline; each
body block is unchanged by `strip` (no stray blank edge lines); and each
section has a non-blank body line. -/
def WellFormedResponse (hH hI hM hC hO : List Char) (bH bI bM bC bO : List (List Char)) :
    Prop :=
  HeaderFor "HOOK".data ["INTRODUCTION".data, "MAIN CONTENT".data, "CALL TO ACTION".data,
    "OUTRO".data] hH ∧
  HeaderFor "INTRODUCTION".data ["HOOK".data, "MAIN CONTENT".data, "CALL TO ACTION".data,
    "OUTRO".data] hI ∧
  HeaderFor "MAIN CONTENT".data ["HOOK".data, "INTRODUCTION".data, "CALL TO ACTION".data,
    "OUTRO".data] hM ∧
  HeaderFor "CALL TO ACTION".data ["HOOK".data, "INTRODUCTION".data, "MAIN CONTENT".data,
    "OUTRO".data] hC ∧
  HeaderFor "OUTRO".data ["HOOK".data, "INTRODUCTION".data, "MAIN CONTENT".data,
    "CALL TO ACTION".data] hO ∧
  (∀ l ∈ bH, hasMarker l = false) ∧ (∀ l ∈ bI, hasMarker l = false) ∧
  (∀ l ∈ bM, hasMarker l = false) ∧ (∀ l ∈ bC, hasMarker l = false) ∧
  (∀ l ∈ bO, hasMarker l = false) ∧
  (∀ l ∈ responseLines hH hI hM hC hO bH bI bM bC bO, '\n' ∉ l) ∧
  pyStrip (joinChar '\n' bH) = joinChar '\n' bH ∧
  pyStrip (joinChar '\n' bI) = joinChar '\n' bI ∧
  pyStrip (joinChar '\n' bM) = joinChar '\n' bM ∧
  pyStrip (joinChar '\n' bC) = joinChar '\n' bC ∧
  pyStrip (joinChar '\n' bO) = joinChar '\n' bO ∧
  (∃ l ∈ bH, ∃ c ∈ l, pyIsSpace c = false) ∧ (∃ l ∈ bI, ∃ c ∈ l, pyIsSpace c = false) ∧
  (∃ l ∈ bM, ∃ c ∈ l, pyIsSpace c = false) ∧ (∃ l ∈ bC, ∃ c ∈ l, pyIsSpace c = false) ∧
  (∃ l ∈ bO, ∃ c ∈ l, pyIsSpace c = false)

/-- Per-iteration record produced by the batch loop (if any). -/
def gmvRec (api : Nat → Except String String) (nowf : Nat → String)
    (topic video_length style target_audience additional_requirements : String) (i : Nat) :
    Option ScriptData :=
  match generate_script (api i) topic video_length style target_audience
      additional_requirements (nowf i) with
  | Except.ok s => some (setVariation s (i + 1))
  | Except.error _ => none

/-- Per-iteration printed error line of the batch loop (if any). -/
def gmvLog (api : Nat → Except String String) (nowf : Nat → String)
    (topic video_length style target_audience additional_requirements : String) (i : Nat) :
    Option String :=
  match generate_script (api i) topic video_length style target_audience
      additional_requirements (nowf i) with
  | Except.ok _ => none
  | Except.error e => some ("Error generating variation " ++ toString (i + 1) ++ ": " ++ e)

/-- Concrete Script Record used in counterexamples and witnesses. -/
def demoRecord : ScriptData :=
  { topic := "t", generated_at := "now", full_script := "full", hook := "",
    introduction := "", main_content := "", call_to_action := "", outro := "",
    variation := none }

/-- Remote-call oracle where every attempt succeeds (witness use). -/
def wApiOk : Nat → Except String String := fun _ => Except.ok "resp"

/-- Remote-call oracle where exactly attempt 0 fails (witness use). -/
def wApiFail : Nat → Except String String :=
  fun i => if i = 0 then Except.error "boom" else Except.ok "resp"

/-- The raw response text whose lines are the given headers and bodies. -/
def responseText (hH hI hM hC hO : List Char) (bH bI bM bC bO : List (List Char)) : String :=
  String.mk (joinChar '\n' (responseLines hH hI hM hC hO bH bI bM bC bO))

/-! ## Lemmas and claim theorems -/

theorem str_data_append (s t : String) : (s ++ t).data = s.data ++ t.data := by
  cases s; cases t; rfl

theorem isPrefixOf_append_self (n r : List Char) : n.isPrefixOf (n ++ r) = true := by
  induction n with
  | nil => cases r <;> rfl
  | cons c t ih => simp [List.isPrefixOf, ih]

theorem eq_append_of_isPrefixOf {n h : List Char} (hp : n.isPrefixOf h = true) :
    ∃ r, h = n ++ r := by
  induction n generalizing h with
  | nil => exact ⟨h, rfl⟩
  | cons c t ih =>
    cases h with
    | nil => simp [List.isPrefixOf] at hp
    | cons c' t' =>
      simp only [List.isPrefixOf, Bool.and_eq_true, beq_iff_eq] at hp
      obtain ⟨r, hr⟩ := ih hp.2
      exact ⟨r, by simp [hp.1, hr]⟩

theorem inStr_of_isPrefixOf {n h : List Char} (hp : n.isPrefixOf h = true) :
    inStr n h = true := by
  cases h with
  | nil =>
    cases n with
    | nil => rfl
    | cons c t => simp [List.isPrefixOf] at hp
  | cons c t => simp [inStr, hp]

theorem inStr_of_parts (n p q : List Char) : inStr n (p ++ (n ++ q)) = true := by
  induction p with
  | nil => exact inStr_of_isPrefixOf (isPrefixOf_append_self n q)
  | cons c p' ih => simp [inStr, ih]

theorem inStr_append_right {n t : List Char} (s : List Char) (h : inStr n t = true) :
    inStr n (s ++ t) = true := by
  induction s with
  | nil => exact h
  | cons c s' ih => simp [inStr, ih]

theorem inStr_eq_true_iff {n h : List Char} :
    inStr n h = true ↔ ∃ p q, h = p ++ (n ++ q) := by
  constructor
  · intro hin
    induction h with
    | nil =>
      simp only [inStr, List.isEmpty_iff] at hin
      exact ⟨[], [], by simp [hin]⟩
    | cons c t ih =>
      simp only [inStr, Bool.or_eq_true] at hin
      rcases hin with hp | htail
      · obtain ⟨r, hr⟩ := eq_append_of_isPrefixOf hp
        exact ⟨[], r, by simp [hr]⟩
      · obtain ⟨p, q, hpq⟩ := ih htail
        exact ⟨c :: p, q, by simp [hpq]⟩
  · rintro ⟨p, q, rfl⟩
    exact inStr_of_parts n p q

theorem inStr_trans {a b c : List Char} (hab : inStr a b = true) (hbc : inStr b c = true) :
    inStr a c = true := by
  obtain ⟨p, q, rfl⟩ := inStr_eq_true_iff.mp hab
  obtain ⟨p', q', rfl⟩ := inStr_eq_true_iff.mp hbc
  rw [inStr_eq_true_iff]
  exact ⟨p' ++ p, q ++ q', by simp⟩

theorem splitOnCharP_no_sep {sep : Char} {l : List Char} (h : sep ∉ l) :
    splitOnCharP sep l = (l, []) := by
  induction l with
  | nil => rfl
  | cons c t ih =>
    have hc : ¬c = sep := fun hc => h (hc ▸ List.mem_cons_self c t)
    have ht : sep ∉ t := fun ht => h (List.mem_cons_of_mem c ht)
    simp [splitOnCharP, hc, ih ht]

theorem splitOnCharP_append_sep {sep : Char} {l : List Char} (rest : List Char) (h : sep ∉ l) :
    splitOnCharP sep (l ++ sep :: rest) =
      (l, (splitOnCharP sep rest).1 :: (splitOnCharP sep rest).2) := by
  induction l with
  | nil => simp [splitOnCharP]
  | cons c t ih =>
    have hc : ¬c = sep := fun hc => h (hc ▸ List.mem_cons_self c t)
    have ht : sep ∉ t := fun ht => h (List.mem_cons_of_mem c ht)
    simp [splitOnCharP, hc, ih ht]

theorem splitOnChar_joinChar {sep : Char} :
    ∀ ls : List (List Char), ls ≠ [] → (∀ l ∈ ls, sep ∉ l) →
      splitOnChar sep (joinChar sep ls) = ls := by
  intro ls
  induction ls with
  | nil => intro h; exact absurd rfl h
  | cons l ls ih =>
    intro _ hmem
    cases ls with
    | nil =>
      have : sep ∉ l := hmem l (List.mem_cons_self l [])
      simp [joinChar, splitOnChar, splitOnCharP_no_sep this]
    | cons l' ls' =>
      have hl : sep ∉ l := hmem l (List.mem_cons_self _ _)
      have hrest : ∀ x ∈ l' :: ls', sep ∉ x := fun x hx => hmem x (List.mem_cons_of_mem l hx)
      have := ih (by simp) hrest
      simp only [joinChar, splitOnChar, splitOnCharP_append_sep _ hl]
      simpa [splitOnChar] using this

theorem mem_joinChar (sep : Char) {c : Char} :
    ∀ {ls : List (List Char)} {l : List Char}, l ∈ ls → c ∈ l → c ∈ joinChar sep ls := by
  intro ls
  induction ls with
  | nil => intro l h; simp at h
  | cons x xs ih =>
    intro l hmem hc
    cases xs with
    | nil =>
      rcases List.mem_cons.mp hmem with rfl | h
      · simpa [joinChar] using hc
      · simp at h
    | cons x' xs' =>
      rcases List.mem_cons.mp hmem with rfl | h
      · simp [joinChar, List.mem_append, hc]
      · simp [joinChar, List.mem_cons, ih h hc]

theorem isTargetHeader_eq_false_of_no_marker {name line : List Char}
    (h : hasMarker line = false) : isTargetHeader name line = false := by
  simp [isTargetHeader, h]

theorem isBreakLine_eq_false_of_no_marker {line : List Char}
    (h : hasMarker line = false) : isBreakLine line = false := by
  simp [isBreakLine, h]

theorem extractLoop_no_marker {name : List Char} :
    ∀ {lines : List (List Char)}, (∀ l ∈ lines, hasMarker l = false) →
      extractLoop name lines false = [] := by
  intro lines
  induction lines with
  | nil => intro _; rfl
  | cons l rest ih =>
    intro h
    have hl := h l (List.mem_cons_self _ _)
    have hrest : ∀ x ∈ rest, hasMarker x = false := fun x hx => h x (List.mem_cons_of_mem l hx)
    simp [extractLoop, isTargetHeader_eq_false_of_no_marker hl, ih hrest]

theorem extractLoop_skip {name : List Char} :
    ∀ {pre : List (List Char)} (rest : List (List Char)),
      (∀ l ∈ pre, isTargetHeader name l = false) →
      extractLoop name (pre ++ rest) false = extractLoop name rest false := by
  intro pre
  induction pre with
  | nil => intro rest _; rfl
  | cons l pre' ih =>
    intro rest h
    have hl := h l (List.mem_cons_self _ _)
    have hpre : ∀ x ∈ pre', isTargetHeader name x = false :=
      fun x hx => h x (List.mem_cons_of_mem l hx)
    simp [extractLoop, hl, ih rest hpre]

theorem extractLoop_collect {name : List Char} :
    ∀ {b : List (List Char)} (rest : List (List Char)),
      (∀ l ∈ b, hasMarker l = false) →
      extractLoop name (b ++ rest) true = b ++ extractLoop name rest true := by
  intro b
  induction b with
  | nil => intro rest _; rfl
  | cons l b' ih =>
    intro rest h
    have hl := h l (List.mem_cons_self _ _)
    have hb : ∀ x ∈ b', hasMarker x = false := fun x hx => h x (List.mem_cons_of_mem l hx)
    simp [extractLoop, isTargetHeader_eq_false_of_no_marker hl,
      isBreakLine_eq_false_of_no_marker hl, ih rest hb]

theorem extractLoop_break {name line : List Char} (rest : List (List Char))
    (hne : isTargetHeader name line = false) (hbr : isBreakLine line = true) :
    extractLoop name (line :: rest) true = [] := by
  simp [extractLoop, hne, hbr]

theorem extract_section_eq (text section_name : String) :
    extract_section text section_name =
      String.mk (pyStrip (joinChar '\n'
        (extractLoop section_name.data (splitOnChar '\n' text.data) false))) := rfl

theorem pyReplaceF_nil (pat rep : List Char) (fuel : Nat) :
    pyReplaceF pat rep fuel [] = [] := by
  cases fuel <;> rfl

theorem pyReplaceF_cons_of_no_match {pat rep : List Char} {c : Char} {t : List Char}
    (fuel : Nat) (hcond : ¬(pat ≠ [] ∧ pat.isPrefixOf (c :: t) = true)) :
    pyReplaceF pat rep (fuel + 1) (c :: t) = c :: pyReplaceF pat rep fuel t := by
  conv_lhs => rw [pyReplaceF]
  rw [if_neg hcond]

theorem dot_cons_no_match {c : Char} (t : List Char) (hc : ¬c = '.') :
    ¬((['.'] : List Char) ≠ [] ∧ List.isPrefixOf ['.'] (c :: t) = true) := by
  rintro ⟨-, hp⟩
  have h2 : '.' = c := by simpa [List.isPrefixOf] using hp
  exact hc h2.symm

theorem pyReplaceF_dot_free {rep : List Char} :
    ∀ {l : List Char} (fuel : Nat), '.' ∉ l → pyReplaceF ['.'] rep fuel l = l := by
  intro l
  induction l with
  | nil => intro fuel _; cases fuel <;> rfl
  | cons c t ih =>
    intro fuel h
    have hc : ¬c = '.' := fun hc => h (hc ▸ List.mem_cons_self c t)
    have ht : '.' ∉ t := fun ht => h (List.mem_cons_of_mem c ht)
    cases fuel with
    | zero => rfl
    | succ fuel' =>
      rw [pyReplaceF_cons_of_no_match fuel' (dot_cons_no_match t hc), ih fuel' ht]

theorem pyReplaceF_dot_split {rep : List Char} (ext : List Char) :
    ∀ {stem : List Char}, '.' ∉ stem →
      pyReplaceF ['.'] rep (stem ++ '.' :: ext).length (stem ++ '.' :: ext) =
        stem ++ rep ++ pyReplaceF ['.'] rep ext.length ext := by
  intro stem
  induction stem with
  | nil =>
    intro _
    have hpre : List.isPrefixOf ['.'] ('.' :: ext) = true := by
      simp [List.isPrefixOf]
    conv_lhs => rw [List.nil_append, List.length_cons, pyReplaceF]
    rw [if_pos ⟨by simp, hpre⟩]
    simp
  | cons c st ih =>
    intro h
    have hc : ¬c = '.' := fun hc => h (hc ▸ List.mem_cons_self c st)
    have hst : '.' ∉ st := fun ht => h (List.mem_cons_of_mem c ht)
    rw [List.cons_append, List.length_cons,
      pyReplaceF_cons_of_no_match _ (dot_cons_no_match _ hc), ih hst]
    simp

theorem pyReplace_dot {rep stem ext : List Char} (hs : '.' ∉ stem) (he : '.' ∉ ext) :
    pyReplace ['.'] rep (stem ++ '.' :: ext) = stem ++ rep ++ ext := by
  unfold pyReplace
  rw [pyReplaceF_dot_split ext hs, pyReplaceF_dot_free ext.length he]

theorem pyReplaceF_single {pat rep : List Char} (hpat : pat ≠ []) :
    ∀ {s : List Char},
      (∀ t ∈ s.tails, t ≠ [] → pat.isPrefixOf (t ++ pat) = false) →
      pyReplaceF pat rep (s ++ pat).length (s ++ pat) = s ++ rep := by
  intro s
  induction s with
  | nil =>
    intro _
    cases pat with
    | nil => exact absurd rfl hpat
    | cons p pr =>
      have hpre : List.isPrefixOf (p :: pr) (p :: pr) = true := by
        have h := isPrefixOf_append_self (p :: pr) []
        rwa [List.append_nil] at h
      conv_lhs => rw [List.nil_append, List.length_cons, pyReplaceF]
      rw [if_pos ⟨by simp, hpre⟩]
      simp [List.drop_length, pyReplaceF_nil]
  | cons c s' ih =>
    intro H
    have hmem : (c :: s') ∈ (c :: s').tails := by
      rw [List.mem_tails]
    have hhead : pat.isPrefixOf ((c :: s') ++ pat) = false := H (c :: s') hmem (by simp)
    have hcond : ¬(pat ≠ [] ∧ pat.isPrefixOf (c :: (s' ++ pat)) = true) := by
      rintro ⟨-, hp⟩
      rw [List.cons_append] at hhead
      exact absurd hp (by simp [hhead])
    have Hs' : ∀ t ∈ s'.tails, t ≠ [] → pat.isPrefixOf (t ++ pat) = false := by
      intro t ht hne
      refine H t ?_ hne
      rw [List.mem_tails] at ht ⊢
      exact ht.trans (List.suffix_cons c s')
    rw [List.cons_append, List.length_cons, pyReplaceF_cons_of_no_match _ hcond, ih Hs']
    simp

theorem pyReplace_single {pat rep : List Char} (hpat : pat ≠ []) {s : List Char}
    (H : ∀ t ∈ s.tails, t ≠ [] → pat.isPrefixOf (t ++ pat) = false) :
    pyReplace pat rep (s ++ pat) = s ++ rep := by
  unfold pyReplace
  exact pyReplaceF_single hpat H

theorem isBreakLine_of_headerFor {name : List Char} {others : List (List Char)}
    {line : List Char} (h : HeaderFor name others line) (kw : List Char)
    (hkw : kw ∈ breakKeywords) (hin : inStr kw (upperChars name) = true) :
    isBreakLine line = true := by
  have hk : hasKeyword line = true := by
    unfold hasKeyword
    rw [List.any_eq_true]
    exact ⟨kw, hkw, inStr_trans hin h.2.1⟩
  simp [isBreakLine, h.1, hk]

theorem isTargetHeader_self {name : List Char} {others : List (List Char)} {line : List Char}
    (h : HeaderFor name others line) : isTargetHeader name line = true := by
  simp [isTargetHeader, h.1, h.2.1]

theorem isTargetHeader_other {name : List Char} {others : List (List Char)} {line : List Char}
    (h : HeaderFor name others line) {n : List Char} (hn : n ∈ others) :
    isTargetHeader n line = false := by
  simp [isTargetHeader, h.2.2 n hn]

theorem gmvAux_eq_filterMap (api : Nat → Except String String) (nowf : Nat → String)
    (topic vl sty aud req : String) :
    ∀ l : List Nat,
      gmvAux api nowf topic vl sty aud req l =
        (l.filterMap (gmvRec api nowf topic vl sty aud req),
         l.filterMap (gmvLog api nowf topic vl sty aud req)) := by
  intro l
  induction l with
  | nil => rfl
  | cons i rest ih =>
    simp only [gmvAux, ih]
    unfold gmvRec gmvLog
    cases hgen : generate_script (api i) topic vl sty aud req (nowf i) with
    | ok s => simp [List.filterMap_cons, hgen]
    | error e => simp [List.filterMap_cons, hgen]

theorem filterMap_eq_map_of {α β : Type} {f : α → Option β} {g : α → β} :
    ∀ {l : List α}, (∀ i ∈ l, f i = some (g i)) → l.filterMap f = l.map g := by
  intro l
  induction l with
  | nil => intro _; rfl
  | cons a t ih =>
    intro h
    rw [List.filterMap_cons, h a (List.mem_cons_self _ _),
      ih (fun i hi => h i (List.mem_cons_of_mem a hi)), List.map_cons]

theorem filterMap_eq_nil_of {α β : Type} {f : α → Option β} :
    ∀ {l : List α}, (∀ i ∈ l, f i = none) → l.filterMap f = [] := by
  intro l
  induction l with
  | nil => intro _; rfl
  | cons a t ih =>
    intro h
    rw [List.filterMap_cons, h a (List.mem_cons_self _ _),
      ih (fun i hi => h i (List.mem_cons_of_mem a hi))]

theorem filterMap_eq_filter_map_of {β : Type} {f : Nat → Option β} {g : Nat → β} {j : Nat} :
    ∀ {l : List Nat}, (∀ i ∈ l, i ≠ j → f i = some (g i)) → f j = none →
      l.filterMap f = (l.filter (fun i => i != j)).map g := by
  intro l
  induction l with
  | nil => intro _ _; rfl
  | cons a t ih =>
    intro h hj
    by_cases ha : a = j
    · subst ha
      rw [List.filterMap_cons, hj, List.filter_cons]
      simp only [bne_self_eq_false, Bool.false_eq_true, if_neg, ite_false]
      exact ih (fun i hi hne => h i (List.mem_cons_of_mem a hi) hne) hj
    · rw [List.filterMap_cons, h a (List.mem_cons_self _ _) ha, List.filter_cons]
      have : (a != j) = true := by simp [ha]
      rw [this]
      simp only [if_true, List.map_cons]
      rw [ih (fun i hi hne => h i (List.mem_cons_of_mem a hi) hne) hj]

theorem length_filter_range_ne {j n : Nat} (h : j < n) :
    ((List.range n).filter (fun i => i != j)).length = n - 1 := by
  induction n with
  | zero => omega
  | succ n ih =>
    rw [List.range_succ, List.filter_append, List.length_append]
    by_cases hj : j < n
    · rw [ih hj]
      have : ((List.filter (fun i => i != j) [n])).length = 1 := by
        have : (n != j) = true := by simp; omega
        simp [List.filter_cons, this]
      rw [this]
      omega
    · have hjn : j = n := by omega
      subst hjn
      have h1 : (List.range j).filter (fun i => i != j) = List.range j := by
        rw [List.filter_eq_self]
        intro a ha
        rw [List.mem_range] at ha
        simp
        omega
      have h2 : (List.filter (fun i => i != j) [j]).length = 0 := by
        simp [List.filter_cons]
      rw [h1, h2, List.length_range]
      omega

theorem filterMap_range_single {β : Type} {f : Nat → Option β} {j n : Nat} {m : β}
    (h : j < n) (hj : f j = some m) (hother : ∀ i, i < n → i ≠ j → f i = none) :
    (List.range n).filterMap f = [m] := by
  induction n with
  | zero => omega
  | succ n ih =>
    rw [List.range_succ, List.filterMap_append]
    by_cases hjn : j < n
    · rw [ih hjn (fun i hi hne => hother i (by omega) hne)]
      have : List.filterMap f [n] = [] := by
        have : f n = none := hother n (by omega) (by omega)
        simp [List.filterMap_cons, this]
      rw [this, List.append_nil]
    · have hje : j = n := by omega
      subst hje
      have h1 : (List.range j).filterMap f = [] :=
        filterMap_eq_nil_of (fun i hi => by
          rw [List.mem_range] at hi
          exact hother i (by omega) (by omega))
      have h2 : List.filterMap f [j] = [m] := by simp [List.filterMap_cons, hj]
      rw [h1, h2, List.nil_append]

/-- Claim C10: `_extract_section` is total — the `try` body always returns a
string, so the catch-all branch (which would return the "Section not found"
sentinel) is unreachable, and the function never raises. -/
theorem extract_section_total (text section_name : String) :
    extract_section_try text section_name = Except.ok (extract_section text section_name) := rfl

/-- Counterexample to claim C2 as stated: on a response with no markup markers
`_extract_section` returns the empty string, not the "Section not found"
sentinel the claim announces. -/
theorem extract_section_no_marker_counterexample :
    (∀ l ∈ splitOnChar '\n' ("hello\nworld").data, hasMarker l = false) ∧
    extract_section "hello\nworld" "HOOK" ≠ "Section not found" := by decide

/-- Claim C2 (amended): for every response text none of whose lines contains a
markup marker, `_extract_section` returns the empty string for each of the five
section names, without raising. -/
theorem extract_section_no_marker_empty (text : String)
    (H : ∀ l ∈ splitOnChar '\n' text.data, hasMarker l = false) :
    ∀ name ∈ sectionNames, extract_section text name = "" := by
  intro name _
  rw [extract_section_eq, extractLoop_no_marker H]
  rfl

/-- Witness for `extract_section_no_marker_empty` at a concrete marker-free
response. -/
theorem extract_section_no_marker_empty_witness :
    (∀ l ∈ splitOnChar '\n' ("plain text\nsecond line").data, hasMarker l = false) ∧
    extract_section "plain text\nsecond line" "HOOK" = "" :=
  ⟨by decide, extract_section_no_marker_empty "plain text\nsecond line" (by decide) "HOOK"
    (by decide)⟩

/-- Counterexample to claim C4 as stated: `args.output.replace('.', f'_v1.')`
replaces every dot, so for a base name with two dots the marker is not inserted
only before the final extension. -/
theorem variation_filename_counterexample :
    variationFilename "a.b.json" 1 = "a_v1.b_v1.json" ∧
    variationFilename "a.b.json" 1 ≠ "a.b_v1.json" := by decide

/-- Claim C4 (amended): the CLI's per-variation filename replaces every dot of
the base name with `_v<i>.`; when the base name contains exactly one dot —
separating stem and extension — this inserts `_v<i>` immediately before the
extension and leaves the rest unchanged. -/
theorem variation_filename_single_dot (stem ext : List Char) (i : Nat)
    (hs : '.' ∉ stem) (he : '.' ∉ ext) :
    variationFilename (String.mk (stem ++ '.' :: ext)) i =
      String.mk (stem ++ ("_v" ++ toString i).data ++ '.' :: ext) := by
  unfold variationFilename
  have hdot : (".".data : List Char) = ['.'] := rfl
  have hdata : (String.mk (stem ++ '.' :: ext)).data = stem ++ '.' :: ext := rfl
  rw [hdata, hdot, pyReplace_dot hs he]
  have hrep : ("_v" ++ toString i ++ ".").data = ("_v" ++ toString i).data ++ ['.'] := by
    rw [str_data_append]
  rw [hrep]
  simp

/-- Witness for `variation_filename_single_dot` on a concrete base name. -/
theorem variation_filename_single_dot_witness :
    variationFilename "output.json" 2 = "output_v2.json" := by
  have h := variation_filename_single_dot "output".data "json".data 2 (by decide) (by decide)
  have e1 : String.mk ("output".data ++ '.' :: "json".data) = "output.json" := by decide
  have e2 : String.mk ("output".data ++ ("_v" ++ toString 2).data ++ '.' :: "json".data) =
      "output_v2.json" := by decide
  rw [e1, e2] at h
  exact h

/-- Counterexample to claim C5 as stated: for a supplied filename that does not
contain ".json", the plain-text filename equals the structured filename — the
second file does not get a different extension, it overwrites the first. -/
theorem save_script_text_filename_counterexample :
    (save_script demoRecord (some "notes.txt") "TS").textFile =
      (save_script demoRecord (some "notes.txt") "TS").jsonFile := by decide

/-- Claim C5 (amended): `save_script` writes the full record as structured data
to the supplied filename, writes the plain-text file — whose name replaces each
".json" occurrence by ".txt", hence for a filename ending in ".json" (and
containing it only there) the same basename with extension ".txt" — with a
three-line header (title with the topic, generation timestamp, separator)
followed by the full script, and returns the structured filename. -/
theorem save_script_supplied_spec (r : ScriptData) (ts : String) (stem : List Char)
    (H : ∀ t ∈ stem.tails, t ≠ [] → ".json".data.isPrefixOf (t ++ ".json".data) = false) :
    (save_script r (some (String.mk (stem ++ ".json".data))) ts).jsonFile =
      String.mk (stem ++ ".json".data) ∧
    (save_script r (some (String.mk (stem ++ ".json".data))) ts).jsonData = r ∧
    (save_script r (some (String.mk (stem ++ ".json".data))) ts).textFile =
      String.mk (stem ++ ".txt".data) ∧
    (save_script r (some (String.mk (stem ++ ".json".data))) ts).textContent =
      "YouTube Video Script: " ++ r.topic ++ "\n" ++ "Generated: " ++ r.generated_at ++ "\n"
        ++ String.mk (List.replicate 50 '=') ++ "\n\n" ++ r.full_script ∧
    (save_script r (some (String.mk (stem ++ ".json".data))) ts).ret =
      String.mk (stem ++ ".json".data) := by
  refine ⟨rfl, rfl, ?_, rfl, rfl⟩
  show String.mk (pyReplace ".json".data ".txt".data
      (String.mk (stem ++ ".json".data)).data) = String.mk (stem ++ ".txt".data)
  have hdata : (String.mk (stem ++ ".json".data)).data = stem ++ ".json".data := rfl
  rw [hdata, pyReplace_single (by decide) H]

/-- Witness for `save_script_supplied_spec` on a concrete filename. -/
theorem save_script_supplied_spec_witness :
    (save_script demoRecord (some "out.json") "TS").textFile = "out.txt" ∧
    (save_script demoRecord (some "out.json") "TS").ret = "out.json" := by
  have h := save_script_supplied_spec demoRecord "TS" "out".data (by decide)
  have e1 : String.mk ("out".data ++ ".json".data) = "out.json" := by decide
  have e2 : String.mk ("out".data ++ ".txt".data) = "out.txt" := by decide
  rw [e1, e2] at h
  exact ⟨h.2.2.1, h.2.2.2.2⟩

/-- Counterexample to claim C6 as stated: the claim's description of the
derived filename omits the source's `rstrip()`, and the two differ on a topic
with a trailing space. -/
theorem derived_filename_rstrip_counterexample :
    derivedFilename "hi " "TS" ≠ claimDerivedFilename "hi " "TS" := by decide

/-- Claim C6 (amended): the derived filename keeps only alphanumerics, spaces,
hyphens and underscores of the topic, strips trailing whitespace, replaces
spaces with underscores, and appends the timestamp suffix and the fixed ".json"
extension; whenever the filtered topic has no trailing whitespace this agrees
with the claim's description, and two timestamps always give two different
filenames for the same topic. -/
theorem derived_filename_spec :
    (∀ topic ts : String,
        pyRstrip (topic.data.filter allowedChar) = topic.data.filter allowedChar →
        derivedFilename topic ts = claimDerivedFilename topic ts) ∧
    (∀ topic ts₁ ts₂ : String, ts₁ ≠ ts₂ →
        derivedFilename topic ts₁ ≠ derivedFilename topic ts₂) := by
  constructor
  · intro topic ts h
    unfold derivedFilename claimDerivedFilename safeTopic
    rw [h]
  · intro topic ts₁ ts₂ hne heq
    apply hne
    unfold derivedFilename at heq
    have hdata := congrArg String.data heq
    simp only [str_data_append] at hdata
    have h1 := List.append_cancel_right hdata
    have h2 := List.append_cancel_left h1
    cases ts₁; cases ts₂
    exact congrArg String.mk (by simpa using h2)

/-- Witness for `derived_filename_spec` on a concrete topic and timestamps. -/
theorem derived_filename_spec_witness :
    derivedFilename "My Topic" "A" = claimDerivedFilename "My Topic" "A" ∧
    derivedFilename "My Topic" "A" ≠ derivedFilename "My Topic" "B" :=
  ⟨derived_filename_spec.1 "My Topic" "A" (by decide),
   derived_filename_spec.2 "My Topic" "A" "B" (by decide)⟩

/-- Claim C7: with no key argument and no environment value, the constructor
fails with the configuration error whose message contains "API key"; the CLI's
handler catches it and prints the error line followed by the remediation steps,
and — being a total function — terminates without the exception propagating. -/
theorem missing_api_key_spec :
    videoScriptGenerator_init none none = Except.error apiKeyErrorMsg ∧
    inStr "API key".data apiKeyErrorMsg.data = true ∧
    ∀ rest : Option String → Except String (List String),
      cliMain none rest = ("❌ Error: " ++ apiKeyErrorMsg) :: remediationLines := by
  refine ⟨rfl, by decide, fun rest => ?_⟩
  show cliErrorOutput apiKeyErrorMsg = ("❌ Error: " ++ apiKeyErrorMsg) :: remediationLines
  unfold cliErrorOutput
  rw [if_pos (by decide : inStr "API key".data apiKeyErrorMsg.data = true)]

/-- Counterexample to claim C8 as stated: batch assembly does modify the record
after creation — it adds the 1-based variation index, which the freshly parsed
record does not carry. -/
theorem record_variation_added_counterexample :
    ((generate_multiple_variations (fun _ => Except.ok "resp") (fun _ => "now") "t" 1
        "5-10 minutes" "educational" "general" "").1.map ScriptData.variation) = [some 1] ∧
    (parse_script_response "resp" "t" "now").variation = none := by decide

/-- Claim C8 (amended): after `_parse_script_response` assembles a record, the
only change any later operation makes is that batch assembly sets the
`variation` field to the attempt's 1-based index; every other field is
preserved, and `save_script` persists the record unmodified. -/
theorem record_fields_frame (s : ScriptData) (n : Nat) (fn : Option String) (ts : String) :
    (setVariation s n).topic = s.topic ∧
    (setVariation s n).generated_at = s.generated_at ∧
    (setVariation s n).full_script = s.full_script ∧
    (setVariation s n).hook = s.hook ∧
    (setVariation s n).introduction = s.introduction ∧
    (setVariation s n).main_content = s.main_content ∧
    (setVariation s n).call_to_action = s.call_to_action ∧
    (setVariation s n).outro = s.outro ∧
    (setVariation s n).variation = some n ∧
    (save_script s fn ts).jsonData = s :=
  ⟨rfl, rfl, rfl, rfl, rfl, rfl, rfl, rfl, rfl, rfl⟩

set_option maxRecDepth 8192 in
/-- Claim C9: with the default length/style/audience/requirements parameters,
the prompt built for any topic — including the empty one — contains the topic
text verbatim and all five section-name labels; the builder is a total
function, so no input raises. -/
theorem build_prompt_contains (topic : String) :
    inStr topic.data (build_prompt topic "5-10 minutes" "educational" "general" "").data = true ∧
    inStr "HOOK".data (build_prompt topic "5-10 minutes" "educational" "general" "").data = true ∧
    inStr "INTRODUCTION".data
      (build_prompt topic "5-10 minutes" "educational" "general" "").data = true ∧
    inStr "MAIN CONTENT".data
      (build_prompt topic "5-10 minutes" "educational" "general" "").data = true ∧
    inStr "CALL TO ACTION".data
      (build_prompt topic "5-10 minutes" "educational" "general" "").data = true ∧
    inStr "OUTRO".data (build_prompt topic "5-10 minutes" "educational" "general" "").data = true := by
  unfold build_prompt
  simp only [str_data_append, List.append_assoc]
  refine ⟨inStr_of_parts _ _ _, ?_, ?_, ?_, ?_, ?_⟩ <;>
    exact inStr_append_right _ (inStr_append_right _ (by decide))

/-- Claim C1: if all `count` remote calls succeed, the batch returns exactly
`count` records, the `k`-th carrying the 1-based variation index `k + 1`, and
prints nothing; if exactly one call (attempt `j`) fails, the batch returns the
other `count - 1` records — each still tagged with its own attempt's 1-based
index — prints the one failure, and does not re-raise (the model is a total
function by construction, mirroring the loop's blanket `except`). -/
theorem generate_multiple_variations_batch_spec :
    (∀ (api : Nat → Except String String) (content nowf : Nat → String)
        (topic vl sty aud req : String) (count : Nat), 1 ≤ count →
        (∀ i, i < count → api i = Except.ok (content i)) →
        (generate_multiple_variations api nowf topic count vl sty aud req).1.length = count ∧
        (generate_multiple_variations api nowf topic count vl sty aud req).2 = [] ∧
        (∀ k, k < count →
          (generate_multiple_variations api nowf topic count vl sty aud req).1[k]? =
            some (setVariation (parse_script_response (content k) topic (nowf k)) (k + 1)))) ∧
    (∀ (api : Nat → Except String String) (content nowf : Nat → String)
        (topic vl sty aud req : String) (count j : Nat) (msg : String), j < count →
        api j = Except.error msg →
        (∀ i, i < count → i ≠ j → api i = Except.ok (content i)) →
        (generate_multiple_variations api nowf topic count vl sty aud req).1 =
          ((List.range count).filter (fun i => i != j)).map
            (fun i => setVariation (parse_script_response (content i) topic (nowf i)) (i + 1)) ∧
        (generate_multiple_variations api nowf topic count vl sty aud req).1.length =
          count - 1 ∧
        (generate_multiple_variations api nowf topic count vl sty aud req).2 =
          ["Error generating variation " ++ toString (j + 1) ++ ": "
            ++ ("Error generating script: " ++ msg)]) := by
  constructor
  · intro api content nowf topic vl sty aud req count _ H
    have hrec : ∀ i ∈ List.range count, gmvRec api nowf topic vl sty aud req i =
        some (setVariation (parse_script_response (content i) topic (nowf i)) (i + 1)) := by
      intro i hi
      rw [List.mem_range] at hi
      simp [gmvRec, generate_script, H i hi]
    have hlog : ∀ i ∈ List.range count, gmvLog api nowf topic vl sty aud req i = none := by
      intro i hi
      rw [List.mem_range] at hi
      simp [gmvLog, generate_script, H i hi]
    unfold generate_multiple_variations
    rw [gmvAux_eq_filterMap]
    refine ⟨?_, ?_, ?_⟩
    · rw [filterMap_eq_map_of hrec, List.length_map, List.length_range]
    · exact filterMap_eq_nil_of hlog
    · intro k hk
      rw [filterMap_eq_map_of hrec, List.getElem?_map, List.getElem?_range hk]
      rfl
  · intro api content nowf topic vl sty aud req count j msg hj haj H
    have hrec : ∀ i ∈ List.range count, i ≠ j →
        gmvRec api nowf topic vl sty aud req i =
          some (setVariation (parse_script_response (content i) topic (nowf i)) (i + 1)) := by
      intro i hi hne
      rw [List.mem_range] at hi
      simp [gmvRec, generate_script, H i hi hne]
    have hrecj : gmvRec api nowf topic vl sty aud req j = none := by
      simp [gmvRec, generate_script, haj]
    have hlogj : gmvLog api nowf topic vl sty aud req j =
        some ("Error generating variation " ++ toString (j + 1) ++ ": "
          ++ ("Error generating script: " ++ msg)) := by
      simp [gmvLog, generate_script, haj]
    have hlogo : ∀ i, i < count → i ≠ j → gmvLog api nowf topic vl sty aud req i = none := by
      intro i hi hne
      simp [gmvLog, generate_script, H i hi hne]
    unfold generate_multiple_variations
    rw [gmvAux_eq_filterMap]
    refine ⟨?_, ?_, ?_⟩
    · exact filterMap_eq_filter_map_of hrec hrecj
    · rw [filterMap_eq_filter_map_of hrec hrecj, List.length_map, length_filter_range_ne hj]
    · exact filterMap_range_single hj hlogj hlogo

/-- Witness for `generate_multiple_variations_batch_spec`: two fully successful
attempts give two records; with the first of two attempts failing, one record
survives and the single failure is printed. -/
theorem generate_multiple_variations_batch_spec_witness :
    (generate_multiple_variations wApiOk (fun _ => "now") "t" 2 "L" "S" "A" "R").1.length = 2 ∧
    (generate_multiple_variations wApiFail (fun _ => "now") "t" 2 "L" "S" "A" "R").1.length = 1 ∧
    (generate_multiple_variations wApiFail (fun _ => "now") "t" 2 "L" "S" "A" "R").2 =
      ["Error generating variation 1: Error generating script: boom"] := by
  have h1 := (generate_multiple_variations_batch_spec.1 wApiOk (fun _ => "resp")
    (fun _ => "now") "t" "L" "S" "A" "R" 2 (by omega) (fun i _ => rfl)).1
  have h2 := generate_multiple_variations_batch_spec.2 wApiFail (fun _ => "resp")
    (fun _ => "now") "t" "L" "S" "A" "R" 2 0 "boom" (by omega) rfl
    (fun i _ hne => by
      have hi1 : i = 1 := by omega
      subst hi1
      rfl)
  refine ⟨h1, ?_, ?_⟩
  · exact h2.2.1
  · rw [h2.2.2]
    decide

theorem extractLoop_enter {name h : List Char} (rest : List (List Char)) (inSec : Bool)
    (hh : isTargetHeader name h = true) :
    extractLoop name (h :: rest) inSec = extractLoop name rest true := by
  simp [extractLoop, hh]

theorem extractLoop_section {name : List Char} {lines b : List (List Char)}
    {h : List Char} (pre post : List (List Char))
    (heq : lines = pre ++ h :: (b ++ post))
    (hpre : ∀ l ∈ pre, isTargetHeader name l = false)
    (hhdr : isTargetHeader name h = true)
    (hb : ∀ l ∈ b, hasMarker l = false)
    (hstop : extractLoop name post true = []) :
    extractLoop name lines false = b := by
  rw [heq, extractLoop_skip (h :: (b ++ post)) hpre, extractLoop_enter _ _ hhdr,
    extractLoop_collect post hb, hstop, List.append_nil]

theorem mk_joinChar_ne_empty {b : List (List Char)} {l : List Char} {c : Char}
    (hl : l ∈ b) (hc : c ∈ l) : String.mk (joinChar '\n' b) ≠ "" := by
  intro heq
  have hmem := mem_joinChar '\n' hl hc
  have hnil : joinChar '\n' b = [] := congrArg String.data heq
  rw [hnil] at hmem
  simp at hmem

/-- Claim C3: on a well-formed response — the five marked headers in order, each
on its own line, bodies free of markup markers and each containing a non-blank
line — `_extract_section` returns, for every section, exactly the (non-empty)
block of lines strictly between that section's header and the next header (or
the end of the text for OUTRO). -/
theorem extract_section_well_formed (hH hI hM hC hO : List Char)
    (bH bI bM bC bO : List (List Char))
    (W : WellFormedResponse hH hI hM hC hO bH bI bM bC bO) :
    (extract_section (responseText hH hI hM hC hO bH bI bM bC bO) "HOOK" =
        String.mk (joinChar '\n' bH) ∧
      extract_section (responseText hH hI hM hC hO bH bI bM bC bO) "HOOK" ≠ "") ∧
    (extract_section (responseText hH hI hM hC hO bH bI bM bC bO) "INTRODUCTION" =
        String.mk (joinChar '\n' bI) ∧
      extract_section (responseText hH hI hM hC hO bH bI bM bC bO) "INTRODUCTION" ≠ "") ∧
    (extract_section (responseText hH hI hM hC hO bH bI bM bC bO) "MAIN CONTENT" =
        String.mk (joinChar '\n' bM) ∧
      extract_section (responseText hH hI hM hC hO bH bI bM bC bO) "MAIN CONTENT" ≠ "") ∧
    (extract_section (responseText hH hI hM hC hO bH bI bM bC bO) "CALL TO ACTION" =
        String.mk (joinChar '\n' bC) ∧
      extract_section (responseText hH hI hM hC hO bH bI bM bC bO) "CALL TO ACTION" ≠ "") ∧
    (extract_section (responseText hH hI hM hC hO bH bI bM bC bO) "OUTRO" =
        String.mk (joinChar '\n' bO) ∧
      extract_section (responseText hH hI hM hC hO bH bI bM bC bO) "OUTRO" ≠ "") := by
  obtain ⟨HH, HI, HM, HC, HO, BH, BI, BM, BC, BO, NL, SH, SI, SM, SC, SO,
    EH, EI, EM, EC, EO⟩ := W
  have hsplit : splitOnChar '\n' (responseText hH hI hM hC hO bH bI bM bC bO).data =
      responseLines hH hI hM hC hO bH bI bM bC bO := by
    show splitOnChar '\n' (joinChar '\n' (responseLines hH hI hM hC hO bH bI bM bC bO)) =
      responseLines hH hI hM hC hO bH bI bM bC bO
    exact splitOnChar_joinChar _ (by simp [responseLines]) NL
  -- loop results for the five sections
  have eHook : extractLoop "HOOK".data (responseLines hH hI hM hC hO bH bI bM bC bO) false
      = bH := by
    refine extractLoop_section []
      ((hI :: bI) ++ (hM :: bM) ++ (hC :: bC) ++ hO :: bO)
      ?_ ?_ (isTargetHeader_self HH) BH ?_
    · simp [responseLines]
    · intro l hl
      simp at hl
    · rw [List.append_assoc, List.append_assoc, List.cons_append]
      exact extractLoop_break _ (isTargetHeader_other HI (by decide))
        (isBreakLine_of_headerFor HI "INTRODUCTION".data (by decide) (by decide))
  have eIntro : extractLoop "INTRODUCTION".data
      (responseLines hH hI hM hC hO bH bI bM bC bO) false = bI := by
    refine extractLoop_section (hH :: bH)
      ((hM :: bM) ++ (hC :: bC) ++ hO :: bO) ?_ ?_ (isTargetHeader_self HI) BI ?_
    · simp [responseLines]
    · intro l hl
      rcases List.mem_cons.mp hl with rfl | hl
      · exact isTargetHeader_other HH (by decide)
      · exact isTargetHeader_eq_false_of_no_marker (BH l hl)
    · rw [List.append_assoc, List.cons_append]
      exact extractLoop_break _ (isTargetHeader_other HM (by decide))
        (isBreakLine_of_headerFor HM "MAIN".data (by decide) (by decide))
  have eMain : extractLoop "MAIN CONTENT".data
      (responseLines hH hI hM hC hO bH bI bM bC bO) false = bM := by
    refine extractLoop_section ((hH :: bH) ++ hI :: bI)
      ((hC :: bC) ++ hO :: bO) ?_ ?_ (isTargetHeader_self HM) BM ?_
    · simp [responseLines]
    · intro l hl
      rcases List.mem_append.mp hl with hl | hl
      · rcases List.mem_cons.mp hl with rfl | hl
        · exact isTargetHeader_other HH (by decide)
        · exact isTargetHeader_eq_false_of_no_marker (BH l hl)
      · rcases List.mem_cons.mp hl with rfl | hl
        · exact isTargetHeader_other HI (by decide)
        · exact isTargetHeader_eq_false_of_no_marker (BI l hl)
    · rw [List.cons_append]
      exact extractLoop_break _ (isTargetHeader_other HC (by decide))
        (isBreakLine_of_headerFor HC "CALL".data (by decide) (by decide))
  have eCall : extractLoop "CALL TO ACTION".data
      (responseLines hH hI hM hC hO bH bI bM bC bO) false = bC := by
    refine extractLoop_section ((hH :: bH) ++ (hI :: bI) ++ hM :: bM)
      (hO :: bO) ?_ ?_ (isTargetHeader_self HC) BC ?_
    · simp [responseLines]
    · intro l hl
      rcases List.mem_append.mp hl with hl | hl
      · rcases List.mem_append.mp hl with hl | hl
        · rcases List.mem_cons.mp hl with rfl | hl
          · exact isTargetHeader_other HH (by decide)
          · exact isTargetHeader_eq_false_of_no_marker (BH l hl)
        · rcases List.mem_cons.mp hl with rfl | hl
          · exact isTargetHeader_other HI (by decide)
          · exact isTargetHeader_eq_false_of_no_marker (BI l hl)
      · rcases List.mem_cons.mp hl with rfl | hl
        · exact isTargetHeader_other HM (by decide)
        · exact isTargetHeader_eq_false_of_no_marker (BM l hl)
    · exact extractLoop_break _ (isTargetHeader_other HO (by decide))
        (isBreakLine_of_headerFor HO "OUTRO".data (by decide) (by decide))
  have eOutro : extractLoop "OUTRO".data
      (responseLines hH hI hM hC hO bH bI bM bC bO) false = bO := by
    refine extractLoop_section ((hH :: bH) ++ (hI :: bI) ++ (hM :: bM) ++ hC :: bC)
      [] ?_ ?_ (isTargetHeader_self HO) BO rfl
    · simp [responseLines]
    · intro l hl
      rcases List.mem_append.mp hl with hl | hl
      · rcases List.mem_append.mp hl with hl | hl
        · rcases List.mem_append.mp hl with hl | hl
          · rcases List.mem_cons.mp hl with rfl | hl
            · exact isTargetHeader_other HH (by decide)
            · exact isTargetHeader_eq_false_of_no_marker (BH l hl)
          · rcases List.mem_cons.mp hl with rfl | hl
            · exact isTargetHeader_other HI (by decide)
            · exact isTargetHeader_eq_false_of_no_marker (BI l hl)
        · rcases List.mem_cons.mp hl with rfl | hl
          · exact isTargetHeader_other HM (by decide)
          · exact isTargetHeader_eq_false_of_no_marker (BM l hl)
      · rcases List.mem_cons.mp hl with rfl | hl
        · exact isTargetHeader_other HC (by decide)
        · exact isTargetHeader_eq_false_of_no_marker (BC l hl)
  obtain ⟨lH, hlH, cH, hcH, -⟩ := EH
  obtain ⟨lI, hlI, cI, hcI, -⟩ := EI
  obtain ⟨lM, hlM, cM, hcM, -⟩ := EM
  obtain ⟨lC, hlC, cC, hcC, -⟩ := EC
  obtain ⟨lO, hlO, cO, hcO, -⟩ := EO
  have gH : extract_section (responseText hH hI hM hC hO bH bI bM bC bO) "HOOK" =
      String.mk (joinChar '\n' bH) := by
    rw [extract_section_eq, hsplit, eHook, SH]
  have gI : extract_section (responseText hH hI hM hC hO bH bI bM bC bO) "INTRODUCTION" =
      String.mk (joinChar '\n' bI) := by
    rw [extract_section_eq, hsplit, eIntro, SI]
  have gM : extract_section (responseText hH hI hM hC hO bH bI bM bC bO) "MAIN CONTENT" =
      String.mk (joinChar '\n' bM) := by
    rw [extract_section_eq, hsplit, eMain, SM]
  have gC : extract_section (responseText hH hI hM hC hO bH bI bM bC bO) "CALL TO ACTION" =
      String.mk (joinChar '\n' bC) := by
    rw [extract_section_eq, hsplit, eCall, SC]
  have gO : extract_section (responseText hH hI hM hC hO bH bI bM bC bO) "OUTRO" =
      String.mk (joinChar '\n' bO) := by
    rw [extract_section_eq, hsplit, eOutro, SO]
  exact ⟨⟨gH, gH ▸ mk_joinChar_ne_empty hlH hcH⟩,
    ⟨gI, gI ▸ mk_joinChar_ne_empty hlI hcI⟩,
    ⟨gM, gM ▸ mk_joinChar_ne_empty hlM hcM⟩,
    ⟨gC, gC ▸ mk_joinChar_ne_empty hlC hcC⟩,
    ⟨gO, gO ▸ mk_joinChar_ne_empty hlO hcO⟩⟩

/-- Witness for `extract_section_well_formed` at a concrete five-section
response. -/
theorem extract_section_well_formed_witness :
    extract_section (responseText "**HOOK**".data "**INTRODUCTION**".data
        "**MAIN CONTENT**".data "**CALL TO ACTION**".data "**OUTRO**".data
        ["Catchy opening.".data] ["Welcome to the show.".data]
        ["Core point one.".data, "Core point two.".data]
        ["Like and subscribe.".data] ["See you next time.".data]) "MAIN CONTENT" =
      "Core point one.\nCore point two." ∧
    extract_section (responseText "**HOOK**".data "**INTRODUCTION**".data
        "**MAIN CONTENT**".data "**CALL TO ACTION**".data "**OUTRO**".data
        ["Catchy opening.".data] ["Welcome to the show.".data]
        ["Core point one.".data, "Core point two.".data]
        ["Like and subscribe.".data] ["See you next time.".data]) "OUTRO" =
      "See you next time." := by
  have h := extract_section_well_formed "**HOOK**".data "**INTRODUCTION**".data
    "**MAIN CONTENT**".data "**CALL TO ACTION**".data "**OUTRO**".data
    ["Catchy opening.".data] ["Welcome to the show.".data]
    ["Core point one.".data, "Core point two.".data]
    ["Like and subscribe.".data] ["See you next time.".data]
    (by constructor <;> first | decide | (constructor <;> first | decide | (repeat' constructor) <;> decide))
  refine ⟨?_, ?_⟩
  · rw [h.2.2.1.1]
    decide
  · rw [h.2.2.2.2.1]
    decide
